import Mathlib

/-!
Verification development for the elevation-profile server
(`server/elevation_profile.py`).  The Python source is shallowly embedded:
floating-point values are modelled by `ℚ` where the computation is exact
arithmetic and by `ℝ` where `np.hypot`/`np.sqrt` appear, NaN is modelled by
`Option` (with `none` playing the role of NaN), and the external
collaborators (pyproj transformers, the geodesic inverse, rasterio tile
opening) are parameters gathered in an `Env` structure.  Exceptions that the
source raises and catches per tile become `Option`-valued tile processing;
the two `ValueError`s raised during parameter validation become an `Except`
error result.
-/

namespace ElevationProfile

section

attribute [local semireducible] Rat.mul Rat.inv Rat.add Rat.sub

/-- Batteries' executable `Rat.floor` agrees with Mathlib's `Int.floor`. -/
theorem ratFloor_eq_floor (q : ℚ) : q.floor = ⌊q⌋ :=
  le_antisymm (Int.le_floor.mpr (Rat.le_floor.mp le_rfl)) (Rat.le_floor.mpr (Int.floor_le q))

/-- Python `int()` applied to a float: truncation toward zero
(`int(start_file[0])` and friends in `get_elevation_profile`). -/
def pyInt (q : ℚ) : ℤ := if 0 ≤ q then q.floor else -(-q).floor

/-- Truncation toward zero is the floor for nonnegative arguments. -/
theorem pyInt_of_nonneg {q : ℚ} (h : 0 ≤ q) : pyInt q = ⌊q⌋ := by
  rw [pyInt, if_pos h, ratFloor_eq_floor]

/-- Truncation toward zero is the ceiling for negative arguments. -/
theorem pyInt_of_neg {q : ℚ} (h : ¬ 0 ≤ q) : pyInt q = ⌈q⌉ := by
  rw [pyInt, if_neg h, ratFloor_eq_floor, Int.floor_neg, neg_neg]

/-- Python `range(a, b + 1)` over integers: the ascending list `a, a+1, …, b`,
empty when `b < a`.  Used for the tile bounding-box sweep (source lines 34–35). -/
def intRange (a b : ℤ) : List ℤ := (List.range (b + 1 - a).toNat).map fun i : ℕ => a + (i : ℤ)

/-- Membership in `intRange` is exactly the inclusive interval `[a, b]`. -/
theorem mem_intRange {a b x : ℤ} : x ∈ intRange a b ↔ a ≤ x ∧ x ≤ b := by
  unfold intRange
  rw [List.mem_map]
  constructor
  · rintro ⟨i, hi, rfl⟩
    rw [List.mem_range] at hi
    omega
  · rintro ⟨h1, h2⟩
    exact ⟨(x - a).toNat, List.mem_range.mpr (by omega), by omega⟩

/-- Tile identifiers processed by `get_elevation_profile`, in order (source
lines 27–36, together with the `int(tiff[0]), int(tiff[1])` applied when the
file name is built at line 41): the start point's tile, the end point's tile,
then the double loop `for x in range(int(start_file[0]), int(end_file[0]) + 1)`
/ `for y in range(int(start_file[1]), int(end_file[1]) + 1)`.
Inputs are the two endpoints already transformed to EPSG:25832 by the
module-level transformer; `start_file` and `end_file` are those coordinates
divided by 1000. -/
def tilesProcessed (s25832 e25832 : ℚ × ℚ) : List (ℤ × ℤ) :=
  let start_file : ℚ × ℚ := (s25832.1 / 1000, s25832.2 / 1000)
  let end_file : ℚ × ℚ := (e25832.1 / 1000, e25832.2 / 1000)
  (pyInt start_file.1, pyInt start_file.2) ::
    (pyInt end_file.1, pyInt end_file.2) ::
      ((intRange (pyInt start_file.1) (pyInt end_file.1)).map fun x =>
        (intRange (pyInt start_file.2) (pyInt end_file.2)).map fun y => (x, y)).flatten

/-- Numpy `np.rint` on an exact rational: round to the nearest integer,
ties to even (banker's rounding), as used by the `nearest` method. -/
def rintQ (q : ℚ) : ℤ :=
  let f := q.floor
  let r := q - (f : ℚ)
  if r < 1 / 2 then f
  else if 1 / 2 < r then f + 1
  else if f % 2 = 0 then f else f + 1

/-- A decoded raster band after the no-data / mask normalisation of source
lines 63–68: `val i j = none` models a NaN cell, `some v` a valid value. -/
structure Band where
  h : ℕ
  w : ℕ
  val : ℤ → ℤ → Option ℚ

/-- The `method == "nearest"` branch of `_sample_raster_at_points`
(source lines 140–146), for one query point given by its fractional pixel
row/column: round with `np.rint`, return NaN unless the rounded indices are
inside `[0, h) × [0, w)`, else look up the cell (which may itself be NaN). -/
def sampleNearestRC (band : Band) (row col : ℚ) : Option ℚ :=
  let i := rintQ row
  let j := rintQ col
  if 0 ≤ i ∧ i < (band.h : ℤ) ∧ 0 ≤ j ∧ j < (band.w : ℤ) then band.val i j else none

/-- The bilinear branch of `_sample_raster_at_points` (source lines 148–184)
for one query point given by its fractional pixel row/column: floor to the
surrounding four cells, require `i0 ≥ 0 ∧ i1 < h ∧ j0 ≥ 0 ∧ j1 < w`, return
NaN if any of the four neighbour cells is NaN, else the bilinear weighted
sum with weights `(1-dj)(1-di), dj(1-di), (1-dj)di, dj·di`. -/
def sampleBilinearRC (band : Band) (row col : ℚ) : Option ℚ :=
  let i0 := row.floor
  let j0 := col.floor
  let i1 := i0 + 1
  let j1 := j0 + 1
  let di := row - (i0 : ℚ)
  let dj := col - (j0 : ℚ)
  if 0 ≤ i0 ∧ i1 < (band.h : ℤ) ∧ 0 ≤ j0 ∧ j1 < (band.w : ℤ) then
    match band.val i0 j0, band.val i0 j1, band.val i1 j0, band.val i1 j1 with
    | some v00, some v10, some v01, some v11 =>
        some ((1 - dj) * (1 - di) * v00 + dj * (1 - di) * v10 +
          (1 - dj) * di * v01 + dj * di * v11)
    | _, _, _, _ => none
  else none

/-- Numpy `np.hypot`: the planar Euclidean norm, modelled over the reals. -/
noncomputable def hypotR (dx dy : ℝ) : ℝ := Real.sqrt (dx ^ 2 + dy ^ 2)

/-- Lengths `np.hypot(np.diff(xs), np.diff(ys))` of the consecutive segments
of a point list (source lines 194–196). -/
noncomputable def segLengths : List (ℚ × ℚ) → List ℝ
  | p :: q :: rest => hypotR ((q.1 : ℝ) - (p.1 : ℝ)) ((q.2 : ℝ) - (p.2 : ℝ)) :: segLengths (q :: rest)
  | _ => []

/-- Numpy `np.concatenate(([0.0], np.cumsum(seg)))`: the running sums of the
segment lengths, prefixed with `0.0` (source line 197). -/
noncomputable def cumulativeFromSegs (segs : List ℝ) : List ℝ := List.scanl (· + ·) 0 segs

/-- Numpy `np.linspace(0.0, 1.0, n)` over exact rationals: the `n` evenly
spaced parameters from 0 to 1 inclusive (source line 58). -/
def linspace (n : ℕ) : List ℚ := (List.range n).map fun i : ℕ => (i : ℚ) / ((n : ℚ) - 1)

/-- The sample coordinates `x0 + (x1 - x0) * t, y0 + (y1 - y0) * t` placed
along the segment for the linspace parameters (source lines 58–60). -/
def linspacePts (p0 p1 : ℚ × ℚ) (n : ℕ) : List (ℚ × ℚ) :=
  (linspace n).map fun t => (p0.1 + (p1.1 - p0.1) * t, p0.2 + (p1.2 - p0.2) * t)

/-- Model of a resolved pyproj CRS object: an opaque identifier together with
its `is_projected` property. -/
structure CRSModel where
  ident : ℕ
  is_projected : Bool
deriving DecidableEq

/-- Coefficients of the inverted affine transform `~ds.transform` produced by
the `affine` collaborator library (source line 132); fractional pixel indices
are `col = a·x + b·y + c`, `row = d·x + e·y + f` (source lines 137–138). -/
structure AffineT where
  a : ℚ
  b : ℚ
  c : ℚ
  d : ℚ
  e : ℚ
  f : ℚ

/-- Model of an opened rasterio dataset: its optional CRS (`ds.crs` may be
null, source line 42), the inverted affine transform, the band shape, the raw
band values, the validity mask `ds.read_masks(1) > 0`, and the optional
no-data sentinel. -/
structure RasterTile where
  crs : Option CRSModel
  inv : AffineT
  h : ℕ
  w : ℕ
  raw : ℤ → ℤ → ℚ
  mask : ℤ → ℤ → Bool
  nodata : Option ℚ

/-- The band normalisation of source lines 63–68: cells equal to the no-data
sentinel become NaN, then cells outside the validity mask become NaN. -/
def maskBand (t : RasterTile) : Band :=
  { h := t.h
    w := t.w
    val := fun i j =>
      let v := t.raw i j
      if t.mask i j then
        match t.nodata with
        | some nd => if v = nd then none else some v
        | none => some v
      else none }

/-- The whole `_sample_raster_at_points` (source lines 123–184): convert each
query point to fractional pixel row/column through the inverted affine
transform, then sample with the requested method.  Any `method` other than
the string `nearest` takes the bilinear branch, exactly as in the source. -/
def sample_raster_at_points (band : Band) (inv : AffineT) (pts : List (ℚ × ℚ))
    (method : String) : List (Option ℚ) :=
  pts.map fun p =>
    let col := inv.a * p.1 + inv.b * p.2 + inv.c
    let row := inv.d * p.1 + inv.e * p.2 + inv.f
    if method = "nearest" then sampleNearestRC band row col else sampleBilinearRC band row col

/-- Model of the external geospatial collaborators plus the tile store:
`openTile` is `rasterio.open` on the tile's file path (`none` models any
open/decode exception), `resolve` is `pyproj.CRS.from_user_input` on the
caller-supplied identifier (`none` models `CRSError`), `trans` is
`Transformer.from_crs(c1, c2, always_xy=True).transform`, `geodInvDist` is
the distance component of `Geod(ellps="WGS84").inv`, `toEPSG25832` is the
module-level `Transformer.from_crs("EPSG:4326", "EPSG:25832")` of source
line 25, and `wgs84` is `CRS.from_epsg(4326)`. -/
structure Env where
  openTile : ℤ × ℤ → Option RasterTile
  resolve : String → Option CRSModel
  trans : CRSModel → CRSModel → ℚ × ℚ → ℚ × ℚ
  geodInvDist : ℚ × ℚ → ℚ × ℚ → ℝ
  toEPSG25832 : ℚ × ℚ → ℚ × ℚ
  wgs84 : CRSModel

/-- The straight-line length used by `_samples_from_spacing` (source lines
106–116): planar hypot when the raster CRS is projected, else the geodesic
inverse distance after transforming both endpoints to WGS84. -/
noncomputable def segmentLength (env : Env) (raster_crs : CRSModel) (p0 p1 : ℚ × ℚ) : ℝ :=
  if raster_crs.is_projected then hypotR ((p1.1 : ℝ) - (p0.1 : ℝ)) ((p1.2 : ℝ) - (p0.2 : ℝ))
  else env.geodInvDist (env.trans raster_crs env.wgs84 p0) (env.trans raster_crs env.wgs84 p1)

/-- The function `_samples_from_spacing` (source lines 99–120): `2` when the
length is nonpositive, else `max 2 (⌊length / spacing⌋ + 1)`. -/
noncomputable def samples_from_spacing (env : Env) (raster_crs : CRSModel) (p0 p1 : ℚ × ℚ)
    (spacing_m : ℚ) : ℤ :=
  let length := segmentLength env raster_crs p0 p1
  if length ≤ 0 then 2 else max 2 (⌊length / (spacing_m : ℝ)⌋ + 1)

/-- The expression `max(2, int(num_samples or 200))` of source line 55:
`num_samples or 200` yields `200` when `num_samples` is `None` (or `0`). -/
def defaultSamples (num_samples : Option ℤ) : ℤ :=
  max 2 (match num_samples with
    | none => 200
    | some n => if n = 0 then 200 else n)

/-- Geodesic lengths of the consecutive segments of a WGS84 point list
(source line 206). -/
noncomputable def geodSegLengths (env : Env) : List (ℚ × ℚ) → List ℝ
  | p :: q :: rest => env.geodInvDist p q :: geodSegLengths env (q :: rest)
  | _ => []

/-- The function `_compute_cumulative_distances` (source lines 187–208):
cumulative planar distances when the raster CRS is projected, else cumulative
geodesic distances of the WGS84-transformed points. -/
noncomputable def compute_cumulative_distances (env : Env) (raster_crs : CRSModel)
    (pts : List (ℚ × ℚ)) : List ℝ :=
  if raster_crs.is_projected then cumulativeFromSegs (segLengths pts)
  else cumulativeFromSegs (geodSegLengths env (pts.map (env.trans raster_crs env.wgs84)))

/-- The two `ValueError`s that `get_elevation_profile` can raise during
parameter validation (source lines 20–23). -/
inductive ProfileError where
  | invalidNumSamples
  | invalidMethod
deriving DecidableEq

/-- The check `num_samples is not None and num_samples < 2` of source line 20. -/
def numSamplesInvalid (num_samples : Option ℤ) : Bool :=
  match num_samples with
  | some n => decide (n < 2)
  | none => false

/-- The sample-count selection of source lines 52–55: `_samples_from_spacing`
when `spacing_m is not None and spacing_m > 0`, else
`max(2, int(num_samples or 200))`. -/
noncomputable def tileSampleCount (env : Env) (raster_crs : CRSModel) (p0 p1 : ℚ × ℚ)
    (spacing_m : Option ℚ) (num_samples : Option ℤ) : ℤ :=
  match spacing_m with
  | some s => if 0 < s then samples_from_spacing env raster_crs p0 p1 s
              else defaultSamples num_samples
  | none => defaultSamples num_samples

/-- The part of the per-tile `try` block after a successful `rasterio.open`
and input-CRS resolution (source lines 42–87): reproject the endpoints into
the raster CRS, choose the sample count, place the linspace sample points,
sample the normalised band, accumulate distances, and pair distances with
elevations.  The per-tile result dict `{"distance_m": …, "elevation": …}` is
modelled as the zipped list, which the final concatenation loop reads
index-aligned. -/
noncomputable def processTileBody (env : Env) (start_xy end_xy : ℚ × ℚ)
    (spacing_m : Option ℚ) (num_samples : Option ℤ) (method : String)
    (ds : RasterTile) (in_crs : CRSModel) : List (ℝ × Option ℚ) :=
  let raster_crs := ds.crs.getD env.wgs84
  let p0 := env.trans in_crs raster_crs start_xy
  let p1 := env.trans in_crs raster_crs end_xy
  let N := tileSampleCount env raster_crs p0 p1 spacing_m num_samples
  let pts := linspacePts p0 p1 N.toNat
  let vals := sample_raster_at_points (maskBand ds) ds.inv pts method
  let dists := compute_cumulative_distances env raster_crs pts
  dists.zip vals

/-- The whole per-tile `try` block of `get_elevation_profile` (source lines
39–87), for one candidate tile: open the raster (`none` models any exception,
caught at line 88), resolve the input CRS (its `CRSError` is raised inside
the `try` and caught by the same handler), then run the tile body. -/
noncomputable def processTile (env : Env) (start_xy end_xy : ℚ × ℚ) (input_crs : String)
    (spacing_m : Option ℚ) (num_samples : Option ℤ) (method : String) (tile : ℤ × ℤ) :
    Option (List (ℝ × Option ℚ)) :=
  (env.openTile tile).bind fun ds =>
    (env.resolve input_crs).bind fun in_crs =>
      some (processTileBody env start_xy end_xy spacing_m num_samples method ds in_crs)

/-- The concatenation loop of source lines 91–96, for one per-tile result:
keep the `(distance, elevation)` pairs whose elevation is not NaN. -/
def assembleTile (r : List (ℝ × Option ℚ)) : List (ℝ × ℚ) :=
  r.filterMap fun dv => dv.2.map fun v => (dv.1, v)

/-- The function `get_elevation_profile` (source lines 12–96): validate
`num_samples` and `method` (raising `ValueError`, modelled as `Except.error`),
locate the candidate tiles from the EPSG:25832-transformed endpoints, process
each tile with per-tile exceptions swallowed (`Option`), and concatenate the
non-NaN `(distance, elevation)` pairs of every successfully processed tile in
tile order. -/
noncomputable def get_elevation_profile (env : Env) (start_xy end_xy : ℚ × ℚ)
    (input_crs : String) (spacing_m : Option ℚ) (num_samples : Option ℤ) (method : String) :
    Except ProfileError (List (ℝ × ℚ)) :=
  if numSamplesInvalid num_samples then Except.error ProfileError.invalidNumSamples
  else if method ≠ "nearest" ∧ method ≠ "bilinear" then Except.error ProfileError.invalidMethod
  else
    let tiles := tilesProcessed (env.toEPSG25832 start_xy) (env.toEPSG25832 end_xy)
    let results := tiles.filterMap
      (processTile env start_xy end_xy input_crs spacing_m num_samples method)
    Except.ok (results.map assembleTile).flatten

/-- A 2 × 2 all-valid test band with constant value 5. -/
def band2x2 : Band := { h := 2, w := 2, val := fun _ _ => some 5 }

/-- A 1 × 1 all-valid test band with value 5. -/
def band1x1 : Band := { h := 1, w := 1, val := fun _ _ => some 5 }

/-- Counterexample to C1: with EPSG:25832 endpoints (5500, 5500) and
(3500, 3500), the tile x-range spanned by the floors is [3, 5], yet tile
(4, 4) is never enumerated — the Python `range` sweep is empty when the
segment runs toward decreasing coordinates; and with coincident endpoints
the tile (5, 5) appears three times, so the list is not deduplicated. -/
theorem C1_counterexample :
    (⌊(5500 : ℚ) / 1000⌋ = 5 ∧ ⌊(3500 : ℚ) / 1000⌋ = 3) ∧
    ((4 : ℤ), (4 : ℤ)) ∉ tilesProcessed (5500, 5500) (3500, 3500) ∧
    ¬ (tilesProcessed (5500, 5500) (5500, 5500)).Nodup := by
  refine ⟨⟨?_, ?_⟩, by decide, by decide⟩
  · rw [← ratFloor_eq_floor]; decide
  · rw [← ratFloor_eq_floor]; decide

/-- C1 (amended): the candidate tile list of `get_elevation_profile` always
contains the tile of the start point and the tile of the end point, and
contains every integer pair (x, y) with x in the forward Python range from
`int(start_tx)` to `int(end_tx)` and y likewise (where `int` truncates toward
zero and the sweep is empty when the range is reversed); the list is not
deduplicated, so a tile identifier may be processed more than once. -/
theorem C1_tile_enumeration (s e : ℚ × ℚ) (x y : ℤ)
    (hx1 : pyInt (s.1 / 1000) ≤ x) (hx2 : x ≤ pyInt (e.1 / 1000))
    (hy1 : pyInt (s.2 / 1000) ≤ y) (hy2 : y ≤ pyInt (e.2 / 1000)) :
    (pyInt (s.1 / 1000), pyInt (s.2 / 1000)) ∈ tilesProcessed s e ∧
    (pyInt (e.1 / 1000), pyInt (e.2 / 1000)) ∈ tilesProcessed s e ∧
    (x, y) ∈ tilesProcessed s e := by
  refine ⟨List.mem_cons_self _ _, List.mem_cons_of_mem _ (List.mem_cons_self _ _), ?_⟩
  simp only [tilesProcessed]
  refine List.mem_cons_of_mem _ (List.mem_cons_of_mem _ ?_)
  rw [List.mem_flatten]
  refine ⟨(intRange (pyInt (s.2 / 1000)) (pyInt (e.2 / 1000))).map fun yy => (x, yy), ?_, ?_⟩
  · rw [List.mem_map]
    exact ⟨x, mem_intRange.mpr ⟨hx1, hx2⟩, rfl⟩
  · rw [List.mem_map]
    exact ⟨y, mem_intRange.mpr ⟨hy1, hy2⟩, rfl⟩

/-- Witness for C1: the bounding-box tile (2, 3) of the concrete segment from
(1500, 2500) to (3500, 4500) is among the processed tiles. -/
theorem C1_tile_enumeration_witness :
    ((2 : ℤ), (3 : ℤ)) ∈ tilesProcessed (1500, 2500) (3500, 4500) :=
  (C1_tile_enumeration (1500, 2500) (3500, 4500) 2 3
    (by decide) (by decide) (by decide) (by decide)).2.2

/-- C3 (confirmed): bilinear sampling at fractional pixel coordinates
(row, col) is NaN unless all four surrounding cells (floor and floor + 1)
lie strictly inside bounds; inside, it is NaN as soon as one of the four
neighbour values is NaN, and otherwise equals the bilinear weighted sum with
weights (1-dj)(1-di), dj(1-di), (1-dj)di, dj·di for fractional offsets
di = row - ⌊row⌋ and dj = col - ⌊col⌋. -/
theorem C3_bilinear_sampling (band : Band) (row col : ℚ) :
    (¬ (0 ≤ ⌊row⌋ ∧ ⌊row⌋ + 1 < (band.h : ℤ) ∧ 0 ≤ ⌊col⌋ ∧ ⌊col⌋ + 1 < (band.w : ℤ)) →
      sampleBilinearRC band row col = none) ∧
    ((0 ≤ ⌊row⌋ ∧ ⌊row⌋ + 1 < (band.h : ℤ) ∧ 0 ≤ ⌊col⌋ ∧ ⌊col⌋ + 1 < (band.w : ℤ)) →
      ((band.val ⌊row⌋ ⌊col⌋ = none ∨ band.val ⌊row⌋ (⌊col⌋ + 1) = none ∨
          band.val (⌊row⌋ + 1) ⌊col⌋ = none ∨ band.val (⌊row⌋ + 1) (⌊col⌋ + 1) = none) →
        sampleBilinearRC band row col = none) ∧
      (∀ v00 v10 v01 v11,
        band.val ⌊row⌋ ⌊col⌋ = some v00 → band.val ⌊row⌋ (⌊col⌋ + 1) = some v10 →
        band.val (⌊row⌋ + 1) ⌊col⌋ = some v01 → band.val (⌊row⌋ + 1) (⌊col⌋ + 1) = some v11 →
        sampleBilinearRC band row col =
          some ((1 - (col - ⌊col⌋)) * (1 - (row - ⌊row⌋)) * v00 +
            (col - ⌊col⌋) * (1 - (row - ⌊row⌋)) * v10 +
            (1 - (col - ⌊col⌋)) * (row - ⌊row⌋) * v01 +
            (col - ⌊col⌋) * (row - ⌊row⌋) * v11))) := by
  simp only [sampleBilinearRC, ratFloor_eq_floor]
  refine ⟨fun hout => by rw [if_neg hout], fun hin => ⟨fun hnan => ?_, ?_⟩⟩
  · rw [if_pos hin]
    rcases hv00 : band.val ⌊row⌋ ⌊col⌋ with _ | v00 <;>
      rcases hv10 : band.val ⌊row⌋ (⌊col⌋ + 1) with _ | v10 <;>
        rcases hv01 : band.val (⌊row⌋ + 1) ⌊col⌋ with _ | v01 <;>
          rcases hv11 : band.val (⌊row⌋ + 1) (⌊col⌋ + 1) with _ | v11 <;>
            first
              | rfl
              | (rcases hnan with h | h | h | h <;> simp_all)
  · intro v00 v10 v01 v11 h00 h10 h01 h11
    rw [if_pos hin, h00, h10, h01, h11]

/-- Witness for C3: on the all-valid 2 × 2 band, the query point
(row, col) = (1/2, 1/2) evaluates to the weighted sum, here 5. -/
theorem C3_bilinear_sampling_witness :
    sampleBilinearRC band2x2 (1 / 2) (1 / 2) =
      some ((1 - (1 / 2 - ⌊(1 / 2 : ℚ)⌋)) * (1 - (1 / 2 - ⌊(1 / 2 : ℚ)⌋)) * 5 +
        (1 / 2 - ⌊(1 / 2 : ℚ)⌋) * (1 - (1 / 2 - ⌊(1 / 2 : ℚ)⌋)) * 5 +
        (1 - (1 / 2 - ⌊(1 / 2 : ℚ)⌋)) * (1 / 2 - ⌊(1 / 2 : ℚ)⌋) * 5 +
        (1 / 2 - ⌊(1 / 2 : ℚ)⌋) * (1 / 2 - ⌊(1 / 2 : ℚ)⌋) * 5) := by
  have hin : 0 ≤ ⌊(1 / 2 : ℚ)⌋ ∧ ⌊(1 / 2 : ℚ)⌋ + 1 < (band2x2.h : ℤ) ∧
      0 ≤ ⌊(1 / 2 : ℚ)⌋ ∧ ⌊(1 / 2 : ℚ)⌋ + 1 < (band2x2.w : ℤ) := by
    simp only [← ratFloor_eq_floor]
    decide
  exact ((C3_bilinear_sampling band2x2 (1 / 2) (1 / 2)).2 hin).2 5 5 5 5 rfl rfl rfl rfl

/-- Counterexample to C7: the query point (row, col) = (-1/4, 0) has a
fractional row outside [0, h), yet nearest sampling rounds -1/4 to 0 and
returns the cell value instead of NaN. -/
theorem C7_counterexample :
    ((-1 : ℚ) / 4 < 0) ∧ sampleNearestRC band2x2 (-1 / 4) 0 = some 5 := by decide

/-- C7 (amended): bilinear sampling returns NaN for every query point whose
fractional pixel coordinates lie outside [0, h) × [0, w); nearest sampling
returns NaN exactly when the `np.rint`-rounded row/column falls outside
bounds or the rounded-to cell is itself NaN — so a query point slightly
outside (such as row = -1/4) rounds into bounds and can return a valid
sample, while a point just inside (such as row = h - 1/4) rounds out of
bounds and returns NaN. -/
theorem C7_out_of_bounds (band : Band) (row col : ℚ) :
    ((row < 0 ∨ (band.h : ℚ) ≤ row ∨ col < 0 ∨ (band.w : ℚ) ≤ col) →
      sampleBilinearRC band row col = none) ∧
    (sampleNearestRC band row col = none ↔
      ((rintQ row < 0 ∨ (band.h : ℤ) ≤ rintQ row ∨
          rintQ col < 0 ∨ (band.w : ℤ) ≤ rintQ col) ∨
        band.val (rintQ row) (rintQ col) = none)) := by
  constructor
  · intro hb
    simp only [sampleBilinearRC, ratFloor_eq_floor]
    rw [if_neg]
    rintro ⟨h1, h2, h3, h4⟩
    rcases hb with h | h | h | h
    · have h5 : ⌊row⌋ < 0 := Int.floor_lt.mpr (by exact_mod_cast h)
      omega
    · have h5 : (band.h : ℤ) ≤ ⌊row⌋ := Int.le_floor.mpr (by exact_mod_cast h)
      omega
    · have h5 : ⌊col⌋ < 0 := Int.floor_lt.mpr (by exact_mod_cast h)
      omega
    · have h5 : (band.w : ℤ) ≤ ⌊col⌋ := Int.le_floor.mpr (by exact_mod_cast h)
      omega
  · simp only [sampleNearestRC]
    by_cases hin : 0 ≤ rintQ row ∧ rintQ row < (band.h : ℤ) ∧
        0 ≤ rintQ col ∧ rintQ col < (band.w : ℤ)
    · rw [if_pos hin]
      constructor
      · exact fun h => Or.inr h
      · rintro (h | h)
        · rcases h with h | h | h | h <;> omega
        · exact h
    · rw [if_neg hin]
      constructor
      · intro _
        refine Or.inl ?_
        by_contra hout
        push_neg at hout
        exact hin ⟨by omega, by omega, by omega, by omega⟩
      · intro _
        rfl

/-- Witness for C7: on the 2 × 2 band, bilinear is NaN at the fractionally
out-of-bounds row -1/4 (where nearest would still round inside), and nearest
is NaN at the fractionally in-bounds row 7/4, which `np.rint` rounds out to
row 2. -/
theorem C7_out_of_bounds_witness :
    sampleBilinearRC band2x2 (-1 / 4) 0 = none ∧ sampleNearestRC band2x2 (7 / 4) 0 = none :=
  ⟨(C7_out_of_bounds band2x2 (-1 / 4) 0).1 (Or.inl (by decide)),
    (C7_out_of_bounds band2x2 (7 / 4) 0).2.mpr (Or.inl (Or.inr (by decide)))⟩

/-- Counterexample to C8: on a 1 × 1 band the point (0, 0) is exactly at a
cell center (integer fractional coordinates, where the bilinear weights would
collapse to a single corner), yet the nearest method returns the cell value
while the bilinear method returns NaN, because the cell below/right of the
corner is out of bounds. -/
theorem C8_counterexample :
    sampleNearestRC band1x1 0 0 = some 5 ∧ sampleBilinearRC band1x1 0 0 = none := by decide

/-- C8 (amended): at a query point with integer fractional coordinates
(i, j) — a cell center, where the bilinear weights collapse to weight 1 on
corner (i, j) — the two methods agree provided the full 2 × 2 neighbourhood
(i..i+1) × (j..j+1) lies inside bounds and all four neighbour cells are
valid; otherwise bilinear may return NaN where nearest returns a value. -/
theorem C8_center_collapse (band : Band) (i j : ℤ)
    (hi0 : 0 ≤ i) (hi1 : i + 1 < (band.h : ℤ)) (hj0 : 0 ≤ j) (hj1 : j + 1 < (band.w : ℤ))
    (h00 : (band.val i j).isSome) (h10 : (band.val i (j + 1)).isSome)
    (h01 : (band.val (i + 1) j).isSome) (h11 : (band.val (i + 1) (j + 1)).isSome) :
    sampleBilinearRC band (i : ℚ) (j : ℚ) = sampleNearestRC band (i : ℚ) (j : ℚ) := by
  obtain ⟨v00, hv00⟩ := Option.isSome_iff_exists.mp h00
  obtain ⟨v10, hv10⟩ := Option.isSome_iff_exists.mp h10
  obtain ⟨v01, hv01⟩ := Option.isSome_iff_exists.mp h01
  obtain ⟨v11, hv11⟩ := Option.isSome_iff_exists.mp h11
  have hfi : ((i : ℚ)).floor = i := by rw [ratFloor_eq_floor, Int.floor_intCast]
  have hfj : ((j : ℚ)).floor = j := by rw [ratFloor_eq_floor, Int.floor_intCast]
  have hri : rintQ (i : ℚ) = i := by
    simp only [rintQ, hfi, sub_self]
    norm_num
  have hrj : rintQ (j : ℚ) = j := by
    simp only [rintQ, hfj, sub_self]
    norm_num
  simp only [sampleBilinearRC, sampleNearestRC, hfi, hfj, hri, hrj]
  rw [if_pos ⟨hi0, hi1, hj0, hj1⟩, if_pos ⟨hi0, by omega, hj0, by omega⟩]
  rw [hv00, hv10, hv01, hv11]
  rw [sub_self]
  norm_num

/-- Witness for C8: on the all-valid 2 × 2 band, bilinear and nearest agree
at the cell center (0, 0). -/
theorem C8_center_collapse_witness :
    sampleBilinearRC band2x2 ((0 : ℤ) : ℚ) ((0 : ℤ) : ℚ) =
      sampleNearestRC band2x2 ((0 : ℤ) : ℚ) ((0 : ℤ) : ℚ) :=
  C8_center_collapse band2x2 0 0 (by decide) (by decide) (by decide) (by decide)
    (by decide) (by decide) (by decide) (by decide)

/-- A projected test CRS, standing for EPSG:25832. -/
def crsProj : CRSModel := { ident := 25832, is_projected := true }

/-- A geographic test CRS, standing for EPSG:4326. -/
def crsGeo : CRSModel := { ident := 4326, is_projected := false }

/-- A fully valid 2 × 2 test raster tile with identity inverse transform and
constant elevation 5. -/
def tile1 : RasterTile :=
  { crs := some crsProj, inv := ⟨1, 0, 0, 0, 1, 0⟩, h := 2, w := 2,
    raw := fun _ _ => 5, mask := fun _ _ => true, nodata := none }

/-- Test environment in which no tile can be opened; all transforms are
identities and every CRS resolves. -/
noncomputable def envNoTiles : Env :=
  { openTile := fun _ => none, resolve := fun _ => some crsProj,
    trans := fun _ _ p => p, geodInvDist := fun _ _ => 0,
    toEPSG25832 := fun p => p, wgs84 := crsGeo }

/-- Test environment in which every tile opens as `tile1` but the input CRS
identifier never resolves (`pyproj.CRS.from_user_input` raises). -/
noncomputable def envBadCrs : Env :=
  { openTile := fun _ => some tile1, resolve := fun _ => none,
    trans := fun _ _ p => p, geodInvDist := fun _ _ => 0,
    toEPSG25832 := fun p => p, wgs84 := crsGeo }

/-- Test environment in which every tile opens as `tile1` and every CRS
resolves to the projected test CRS; transforms are identities. -/
noncomputable def envOk : Env :=
  { openTile := fun _ => some tile1, resolve := fun _ => some crsProj,
    trans := fun _ _ p => p, geodInvDist := fun _ _ => 0,
    toEPSG25832 := fun p => p, wgs84 := crsGeo }

/-- Helper: once both validation checks pass, `get_elevation_profile` returns
`Except.ok` of the concatenation over the candidate tiles. -/
theorem get_elevation_profile_ok (env : Env) (s e : ℚ × ℚ) (crs : String)
    (sp : Option ℚ) (ns : Option ℤ) (m : String)
    (hns : numSamplesInvalid ns = false) (hm : m = "nearest" ∨ m = "bilinear") :
    get_elevation_profile env s e crs sp ns m =
      Except.ok ((((tilesProcessed (env.toEPSG25832 s) (env.toEPSG25832 e)).filterMap
        (processTile env s e crs sp ns m)).map assembleTile).flatten) := by
  unfold get_elevation_profile
  rw [hns]
  rw [if_neg (by simp)]
  rw [if_neg (by rcases hm with h | h <;> simp [h])]

/-- Helper: a tile that fails to open contributes `none`. -/
theorem processTile_open_none {env : Env} {s e : ℚ × ℚ} {crs : String}
    {sp : Option ℚ} {ns : Option ℤ} {m : String} {t : ℤ × ℤ}
    (ht : env.openTile t = none) : processTile env s e crs sp ns m t = none := by
  unfold processTile
  rw [ht]
  rfl

/-- Helper: a tile for which the input CRS does not resolve contributes
`none` (the `CRSError` is swallowed by the per-tile handler). -/
theorem processTile_resolve_none {env : Env} {s e : ℚ × ℚ} {crs : String}
    {sp : Option ℚ} {ns : Option ℤ} {m : String} {t : ℤ × ℤ}
    (hr : env.resolve crs = none) : processTile env s e crs sp ns m t = none := by
  unfold processTile
  cases env.openTile t with
  | none => rfl
  | some ds => rw [Option.some_bind, hr]; rfl

/-- Helper: a successful per-tile result is the body applied to the opened
dataset and the resolved CRS. -/
theorem processTile_eq_some {env : Env} {s e : ℚ × ℚ} {crs : String}
    {sp : Option ℚ} {ns : Option ℤ} {m : String} {t : ℤ × ℤ}
    {r : List (ℝ × Option ℚ)} (hr : processTile env s e crs sp ns m t = some r) :
    ∃ ds c, env.openTile t = some ds ∧ env.resolve crs = some c ∧
      r = processTileBody env s e sp ns m ds c := by
  unfold processTile at hr
  cases hot : env.openTile t with
  | none => rw [hot] at hr; cases hr
  | some ds =>
    rw [hot, Option.some_bind] at hr
    cases hres : env.resolve crs with
    | none => rw [hres] at hr; cases hr
    | some c =>
      rw [hres, Option.some_bind] at hr
      exact ⟨ds, c, rfl, rfl, (Option.some.inj hr).symm⟩

/-- Helper: `segLengths` produces one length per consecutive pair. -/
theorem segLengths_length (pts : List (ℚ × ℚ)) : (segLengths pts).length = pts.length - 1 := by
  induction pts with
  | nil => rfl
  | cons p rest ih =>
    cases rest with
    | nil => rfl
    | cons q rest2 =>
      simp only [segLengths, List.length_cons] at ih ⊢
      omega

/-- Helper: `geodSegLengths` produces one length per consecutive pair. -/
theorem geodSegLengths_length (env : Env) (pts : List (ℚ × ℚ)) :
    (geodSegLengths env pts).length = pts.length - 1 := by
  induction pts with
  | nil => rfl
  | cons p rest ih =>
    cases rest with
    | nil => rfl
    | cons q rest2 =>
      simp only [geodSegLengths, List.length_cons] at ih ⊢
      omega

/-- Helper: the cumulative-distance list has one entry per point for a
nonempty point list. -/
theorem length_compute_cumulative_distances (env : Env) (c : CRSModel)
    (pts : List (ℚ × ℚ)) (h : pts ≠ []) :
    (compute_cumulative_distances env c pts).length = pts.length := by
  have hlen : 1 ≤ pts.length := List.length_pos.mpr h
  unfold compute_cumulative_distances
  split
  · rw [cumulativeFromSegs, List.length_scanl, segLengths_length]
    omega
  · rw [cumulativeFromSegs, List.length_scanl, geodSegLengths_length, List.length_map]
    omega

/-- Helper: `linspace n` has `n` entries, like `np.linspace(0, 1, n)`. -/
theorem length_linspace (n : ℕ) : (linspace n).length = n := by
  simp [linspace]

/-- Helper: `linspacePts` places exactly `n` sample points. -/
theorem length_linspacePts (p0 p1 : ℚ × ℚ) (n : ℕ) : (linspacePts p0 p1 n).length = n := by
  simp [linspacePts, length_linspace]

/-- Helper: `_samples_from_spacing` never returns fewer than 2 samples. -/
theorem two_le_samples_from_spacing (env : Env) (c : CRSModel) (p0 p1 : ℚ × ℚ) (s : ℚ) :
    2 ≤ samples_from_spacing env c p0 p1 s := by
  show 2 ≤ if segmentLength env c p0 p1 ≤ 0 then 2
    else max 2 (⌊segmentLength env c p0 p1 / (s : ℝ)⌋ + 1)
  split
  · exact le_refl 2
  · exact le_max_left _ _

/-- Helper: the `max(2, int(num_samples or 200))` fallback is at least 2. -/
theorem two_le_defaultSamples (ns : Option ℤ) : 2 ≤ defaultSamples ns := le_max_left _ _

/-- Helper: the per-tile sample count is always at least 2. -/
theorem two_le_tileSampleCount (env : Env) (c : CRSModel) (p0 p1 : ℚ × ℚ)
    (sp : Option ℚ) (ns : Option ℤ) : 2 ≤ tileSampleCount env c p0 p1 sp ns := by
  cases sp with
  | none => exact two_le_defaultSamples ns
  | some s =>
    show 2 ≤ if 0 < s then samples_from_spacing env c p0 p1 s else defaultSamples ns
    split
    · exact two_le_samples_from_spacing env c p0 p1 s
    · exact two_le_defaultSamples ns

/-- Helper: the per-tile result pairs one distance with one elevation per
sample point. -/
theorem processTileBody_length (env : Env) (s e : ℚ × ℚ) (sp : Option ℚ) (ns : Option ℤ)
    (m : String) (ds : RasterTile) (c : CRSModel) :
    (processTileBody env s e sp ns m ds c).length =
      (tileSampleCount env (ds.crs.getD env.wgs84)
        (env.trans c (ds.crs.getD env.wgs84) s) (env.trans c (ds.crs.getD env.wgs84) e)
        sp ns).toNat := by
  have h2 : 2 ≤ tileSampleCount env (ds.crs.getD env.wgs84)
      (env.trans c (ds.crs.getD env.wgs84) s) (env.trans c (ds.crs.getD env.wgs84) e) sp ns :=
    two_le_tileSampleCount env _ _ _ sp ns
  unfold processTileBody
  rw [List.length_zip]
  rw [length_compute_cumulative_distances]
  · rw [length_linspacePts, sample_raster_at_points, List.length_map, length_linspacePts]
    exact min_self _
  · intro hnil
    have := length_linspacePts (env.trans c (ds.crs.getD env.wgs84) s)
      (env.trans c (ds.crs.getD env.wgs84) e)
      (tileSampleCount env (ds.crs.getD env.wgs84)
        (env.trans c (ds.crs.getD env.wgs84) s) (env.trans c (ds.crs.getD env.wgs84) e)
        sp ns).toNat
    rw [hnil] at this
    simp only [List.length_nil] at this
    omega

/-- Helper: `np.hypot` is nonnegative. -/
theorem hypotR_nonneg (dx dy : ℝ) : 0 ≤ hypotR dx dy := Real.sqrt_nonneg _

/-- Helper: `np.hypot d 0 = |d|`. -/
theorem hypotR_zero_right (d : ℝ) : hypotR d 0 = |d| := by
  unfold hypotR
  rw [show ((0 : ℝ) ^ 2) = 0 by norm_num, add_zero, Real.sqrt_sq_eq_abs]

/-- Helper: `np.hypot` scales by nonnegative factors. -/
theorem hypotR_smul (k dx dy : ℝ) (hk : 0 ≤ k) :
    hypotR (k * dx) (k * dy) = k * hypotR dx dy := by
  unfold hypotR
  rw [mul_pow, mul_pow, ← mul_add, Real.sqrt_mul (sq_nonneg k), Real.sqrt_sq hk]

/-- Counterexample to C5: with a projected CRS, endpoints (0, 0) and (50, 0)
and spacing 100, the segment length is L = 50 > 0, the claimed count
⌊L/S⌋ + 1 is 1, but `_samples_from_spacing` returns max(2, 1) = 2. -/
theorem C5_counterexample :
    (0 : ℝ) < segmentLength envOk crsProj (0, 0) (50, 0) ∧
    ⌊segmentLength envOk crsProj (0, 0) (50, 0) / ((100 : ℚ) : ℝ)⌋ + 1 = 1 ∧
    samples_from_spacing envOk crsProj (0, 0) (50, 0) 100 = 2 := by
  have hL : segmentLength envOk crsProj (0, 0) (50, 0) = 50 := by
    show hypotR ((((50 : ℚ), (0 : ℚ)).1 : ℝ) - (((0 : ℚ), (0 : ℚ)).1 : ℝ))
      ((((50 : ℚ), (0 : ℚ)).2 : ℝ) - (((0 : ℚ), (0 : ℚ)).2 : ℝ)) = 50
    norm_num
    rw [hypotR_zero_right]
    norm_num
  have hfloor : ⌊segmentLength envOk crsProj (0, 0) (50, 0) / ((100 : ℚ) : ℝ)⌋ = 0 := by
    rw [hL, show ((100 : ℚ) : ℝ) = 100 by norm_num, Int.floor_eq_zero_iff]
    constructor <;> norm_num
  refine ⟨by rw [hL]; norm_num, by rw [hfloor]; norm_num, ?_⟩
  show (if segmentLength envOk crsProj (0, 0) (50, 0) ≤ 0 then 2
    else max 2 (⌊segmentLength envOk crsProj (0, 0) (50, 0) / ((100 : ℚ) : ℝ)⌋ + 1)) = 2
  rw [hfloor, if_neg (by rw [hL]; norm_num)]
  norm_num

/-- C5 (amended): for every spacing S > 0 the sample count of
`_samples_from_spacing` is at least 2; when the segment length L (planar
hypot for a projected CRS, geodesic otherwise) is positive the count equals
max(2, ⌊L/S⌋ + 1) — the claimed ⌊L/S⌋ + 1 holds only after clamping below at
2 — and a degenerate segment (L ≤ 0) yields 2. -/
theorem C5_sample_count (env : Env) (c : CRSModel) (p0 p1 : ℚ × ℚ) (s : ℚ)
    (hs : 0 < s) :
    2 ≤ samples_from_spacing env c p0 p1 s ∧
    (0 < segmentLength env c p0 p1 →
      samples_from_spacing env c p0 p1 s =
        max 2 (⌊segmentLength env c p0 p1 / (s : ℝ)⌋ + 1)) ∧
    (segmentLength env c p0 p1 ≤ 0 → samples_from_spacing env c p0 p1 s = 2) := by
  refine ⟨two_le_samples_from_spacing env c p0 p1 s, fun hL => ?_, fun hL => ?_⟩
  · show (if segmentLength env c p0 p1 ≤ 0 then 2
      else max 2 (⌊segmentLength env c p0 p1 / (s : ℝ)⌋ + 1)) = _
    rw [if_neg (not_le.mpr hL)]
  · show (if segmentLength env c p0 p1 ≤ 0 then 2
      else max 2 (⌊segmentLength env c p0 p1 / (s : ℝ)⌋ + 1)) = 2
    rw [if_pos hL]

/-- Witness for C5: spacing 100 on the projected segment (0, 0)–(500, 0) of
length 500 gives max(2, ⌊500/100⌋ + 1) = 6 samples. -/
theorem C5_sample_count_witness :
    samples_from_spacing envOk crsProj (0, 0) (500, 0) 100 = 6 := by
  have hL : segmentLength envOk crsProj (0, 0) (500, 0) = 500 := by
    show hypotR ((((500 : ℚ), (0 : ℚ)).1 : ℝ) - (((0 : ℚ), (0 : ℚ)).1 : ℝ))
      ((((500 : ℚ), (0 : ℚ)).2 : ℝ) - (((0 : ℚ), (0 : ℚ)).2 : ℝ)) = 500
    norm_num
    rw [hypotR_zero_right]
    norm_num
  have h := (C5_sample_count envOk crsProj (0, 0) (500, 0) 100 (by norm_num)).2.1
    (by rw [hL]; norm_num)
  rw [h, hL]
  rw [show ((100 : ℚ) : ℝ) = 100 by norm_num]
  rw [show (500 : ℝ) / 100 = ((5 : ℤ) : ℝ) by norm_num, Int.floor_intCast]
  norm_num

/-- Helper: the cumulative-distance list always starts with 0.0. -/
theorem head_cumulativeFromSegs (segs : List ℝ) : (cumulativeFromSegs segs).head? = some 0 := by
  cases segs <;> rfl

/-- Helper: running sums of nonnegative terms form a non-decreasing chain. -/
theorem chain_scanl_add (b : ℝ) (l : List ℝ) (h : ∀ x ∈ l, 0 ≤ x) :
    List.Chain' (· ≤ ·) (List.scanl (· + ·) b l) := by
  induction l generalizing b with
  | nil => simp [List.scanl_nil]
  | cons x xs ih =>
    rw [List.scanl_cons, List.singleton_append, List.chain'_cons']
    constructor
    · intro y hy
      have hhead : (List.scanl (· + ·) (b + x) xs).head? = some (b + x) := by
        cases xs <;> rfl
      rw [hhead, Option.mem_some_iff] at hy
      subst hy
      exact le_add_of_nonneg_right (h x (List.mem_cons_self _ _))
    · exact ih (b + x) fun z hz => h z (List.mem_cons_of_mem _ hz)

/-- Helper: the last running sum is the start value plus the total. -/
theorem getLast_scanl_add (b : ℝ) (l : List ℝ) :
    (List.scanl (· + ·) b l).getLast? = some (b + l.sum) := by
  induction l generalizing b with
  | nil => simp [List.scanl_nil]
  | cons x xs ih =>
    rw [List.scanl_cons, List.singleton_append, List.getLast?_cons, ih (b + x)]
    simp [add_assoc]

/-- Helper: every consecutive-segment length is nonnegative. -/
theorem segLengths_nonneg (pts : List (ℚ × ℚ)) : ∀ x ∈ segLengths pts, 0 ≤ x := by
  induction pts with
  | nil => simp [segLengths]
  | cons p rest ih =>
    cases rest with
    | nil => simp [segLengths]
    | cons q rest2 =>
      intro x hx
      simp only [segLengths] at hx
      rcases List.mem_cons.mp hx with rfl | hx2
      · exact Real.sqrt_nonneg _
      · exact ih x hx2

/-- Helper: the segment lengths of points placed affinely along one straight
segment with non-decreasing parameters telescope to (last − first) times the
segment's hypot length. -/
theorem segLengths_map_affine (p0 p1 : ℚ × ℚ) (t0 : ℚ) (ts : List ℚ)
    (hch : List.Chain' (· ≤ ·) (t0 :: ts)) :
    (segLengths ((t0 :: ts).map fun t =>
      (p0.1 + (p1.1 - p0.1) * t, p0.2 + (p1.2 - p0.2) * t))).sum =
      (((t0 :: ts).getLast (List.cons_ne_nil t0 ts) - t0 : ℚ) : ℝ) *
        hypotR ((p1.1 : ℝ) - (p0.1 : ℝ)) ((p1.2 : ℝ) - (p0.2 : ℝ)) := by
  induction ts generalizing t0 with
  | nil =>
    simp [segLengths, List.getLast_singleton]
  | cons t1 ts2 ih =>
    obtain ⟨h01, hch2⟩ := List.chain'_cons.mp hch
    have harg1 : ((p0.1 + (p1.1 - p0.1) * t1 : ℚ) : ℝ) - ((p0.1 + (p1.1 - p0.1) * t0 : ℚ) : ℝ) =
        ((t1 - t0 : ℚ) : ℝ) * ((p1.1 : ℝ) - (p0.1 : ℝ)) := by
      push_cast
      ring
    have harg2 : ((p0.2 + (p1.2 - p0.2) * t1 : ℚ) : ℝ) - ((p0.2 + (p1.2 - p0.2) * t0 : ℚ) : ℝ) =
        ((t1 - t0 : ℚ) : ℝ) * ((p1.2 : ℝ) - (p0.2 : ℝ)) := by
      push_cast
      ring
    have hgl : (t0 :: t1 :: ts2).getLast (List.cons_ne_nil t0 (t1 :: ts2)) =
        (t1 :: ts2).getLast (List.cons_ne_nil t1 ts2) := List.getLast_cons _
    simp only [List.map_cons, segLengths, List.sum_cons]
    have ihh := ih t1 hch2
    rw [List.map_cons] at ihh
    rw [ihh, harg1, harg2,
      hypotR_smul _ _ _ (by exact_mod_cast sub_nonneg.mpr h01), hgl]
    push_cast
    ring

/-- Helper: the linspace parameters are non-decreasing. -/
theorem linspace_chain (n : ℕ) : List.Chain' (· ≤ ·) (linspace n) := by
  unfold linspace
  rcases n with _ | m
  · simp
  · rw [List.chain'_map, List.chain'_range_succ]
    intro i hi
    have hm : (0 : ℚ) < ((m.succ : ℚ) - 1) := by
      have : 0 < m := by omega
      push_cast
      have hq : (0 : ℚ) < (m : ℚ) := by exact_mod_cast this
      linarith
    rw [div_le_div_iff_of_pos_right hm]
    exact_mod_cast Nat.le_succ i

/-- Helper: the first linspace parameter is 0. -/
theorem linspace_head (n : ℕ) (hn : 1 ≤ n) : (linspace n).head? = some 0 := by
  rcases n with _ | m
  · omega
  · unfold linspace
    rw [List.range_succ_eq_map]
    simp

/-- Helper: the last linspace parameter is 1 when there are at least two. -/
theorem linspace_getLast (n : ℕ) (hn : 2 ≤ n) : (linspace n).getLast? = some 1 := by
  obtain ⟨m, rfl⟩ : ∃ m, n = m + 2 := ⟨n - 2, by omega⟩
  unfold linspace
  rw [List.range_succ, List.map_append, List.map_singleton, List.getLast?_concat]
  rw [show ((m + 2 : ℕ) : ℚ) - 1 = ((m + 1 : ℕ) : ℚ) by push_cast; ring]
  rw [div_self (by positivity)]

/-- Counterexample to C4: on the empty input list the projected branch of
`_compute_cumulative_distances` returns the single-element list [0.0] — one
distance for zero input points — so the one-distance-per-point contract
fails at this edge. -/
theorem C4_counterexample :
    (compute_cumulative_distances envOk crsProj []).length = 1 ∧
    ([] : List (ℚ × ℚ)).length = 0 := ⟨rfl, rfl⟩

/-- C4 (amended): for a projected raster CRS and a nonempty input,
`_compute_cumulative_distances` returns one distance per input point (an
empty input yields the single entry 0.0 instead), the first distance is 0.0,
the sequence is non-decreasing, and for at least two points sampled by
linspace along a straight segment the final cumulative distance equals the
planar Euclidean length of the full segment exactly (in the real-number
model of floating point). -/
theorem C4_cumulative_distances (env : Env) (c : CRSModel) (hc : c.is_projected = true)
    (pts : List (ℚ × ℚ)) (hne : pts ≠ []) :
    (compute_cumulative_distances env c pts).length = pts.length ∧
    (compute_cumulative_distances env c pts).head? = some 0 ∧
    List.Chain' (· ≤ ·) (compute_cumulative_distances env c pts) ∧
    (∀ p0 p1 n, 2 ≤ n → pts = linspacePts p0 p1 n →
      (compute_cumulative_distances env c pts).getLast? =
        some (hypotR ((p1.1 : ℝ) - (p0.1 : ℝ)) ((p1.2 : ℝ) - (p0.2 : ℝ)))) := by
  have heq : compute_cumulative_distances env c pts = cumulativeFromSegs (segLengths pts) := by
    unfold compute_cumulative_distances
    rw [if_pos hc]
  refine ⟨length_compute_cumulative_distances env c pts hne, ?_, ?_, ?_⟩
  · rw [heq]
    exact head_cumulativeFromSegs _
  · rw [heq]
    exact chain_scanl_add 0 _ (segLengths_nonneg pts)
  · intro p0 p1 n hn hpts
    rw [heq, cumulativeFromSegs, getLast_scanl_add, zero_add]
    cases hls : linspace n with
    | nil =>
      have := length_linspace n
      rw [hls] at this
      simp only [List.length_nil] at this
      omega
    | cons t0 ts =>
      have hchain : List.Chain' (· ≤ ·) (t0 :: ts) := by
        rw [← hls]
        exact linspace_chain n
      have ht0 : t0 = 0 := by
        have := linspace_head n (by omega)
        rw [hls] at this
        exact Option.some.inj this
      have hlast : (t0 :: ts).getLast (List.cons_ne_nil t0 ts) = 1 := by
        have h1 := linspace_getLast n hn
        rw [hls, List.getLast?_eq_getLast _ (List.cons_ne_nil t0 ts)] at h1
        exact Option.some.inj h1
      rw [hpts, linspacePts, hls]
      rw [segLengths_map_affine p0 p1 t0 ts hchain, hlast, ht0]
      norm_num

/-- Witness for C4: two linspace points from (0, 0) to (3, 0) in a projected
CRS give two cumulative distances starting at 0.0 and ending at the segment
length hypot(3, 0). -/
theorem C4_cumulative_distances_witness :
    (compute_cumulative_distances envOk crsProj (linspacePts (0, 0) (3, 0) 2)).length = 2 ∧
    (compute_cumulative_distances envOk crsProj (linspacePts (0, 0) (3, 0) 2)).head? =
      some 0 ∧
    (compute_cumulative_distances envOk crsProj (linspacePts (0, 0) (3, 0) 2)).getLast? =
      some (hypotR ((((3 : ℚ), (0 : ℚ)).1 : ℝ) - (((0 : ℚ), (0 : ℚ)).1 : ℝ))
        ((((3 : ℚ), (0 : ℚ)).2 : ℝ) - (((0 : ℚ), (0 : ℚ)).2 : ℝ))) := by
  have h := C4_cumulative_distances envOk crsProj rfl (linspacePts (0, 0) (3, 0) 2) (by decide)
  refine ⟨?_, h.2.1, h.2.2.2 (0, 0) (3, 0) 2 (by norm_num) rfl⟩
  rw [h.1]
  rfl

/-- C2 (confirmed): once the `num_samples` and `method` validation passes,
the call returns normally with the concatenation over exactly the candidate
tiles whose processing succeeds; a tile that fails to open contributes
nothing while the remaining tiles are still processed, and when no tile can
be opened at all the result is the empty list, returned successfully. -/
theorem C2_tile_failures_not_fatal (env : Env) (s e : ℚ × ℚ) (crs : String)
    (sp : Option ℚ) (ns : Option ℤ) (m : String)
    (hns : numSamplesInvalid ns = false) (hm : m = "nearest" ∨ m = "bilinear") :
    get_elevation_profile env s e crs sp ns m =
      Except.ok ((((tilesProcessed (env.toEPSG25832 s) (env.toEPSG25832 e)).filterMap
        (processTile env s e crs sp ns m)).map assembleTile).flatten) ∧
    (∀ t, env.openTile t = none → processTile env s e crs sp ns m t = none) ∧
    ((∀ t, env.openTile t = none) → get_elevation_profile env s e crs sp ns m = Except.ok []) := by
  refine ⟨get_elevation_profile_ok env s e crs sp ns m hns hm,
    fun t ht => processTile_open_none ht, fun hall => ?_⟩
  rw [get_elevation_profile_ok env s e crs sp ns m hns hm]
  rw [List.filterMap_eq_nil_iff.mpr fun t _ => processTile_open_none (hall t)]
  rfl

/-- Witness for C2: in the environment where no tile opens, a validated
request returns the empty profile successfully. -/
theorem C2_tile_failures_not_fatal_witness :
    get_elevation_profile envNoTiles (0, 0) (1000, 1000) "EPSG:4326" none (some 5) "bilinear" =
      Except.ok [] :=
  (C2_tile_failures_not_fatal envNoTiles (0, 0) (1000, 1000) "EPSG:4326" none (some 5) "bilinear"
    rfl (Or.inr rfl)).2.2 fun _ => rfl

/-- Counterexample to C6: with an environment where every tile opens but the
input CRS identifier does not resolve, the call does not fail with a
request-level error: every tile's `CRSError` is swallowed by the per-tile
handler and the call returns a successful empty profile. -/
theorem C6_counterexample :
    envBadCrs.resolve "EPSG:9999" = none ∧
    get_elevation_profile envBadCrs (0, 0) (0, 0) "EPSG:9999" none (some 4) "bilinear" =
      Except.ok [] := ⟨rfl, rfl⟩

/-- C6 (amended): when the input CRS identifier cannot be resolved, the
resulting `CRSError` is raised inside each tile's `try` block and swallowed
by the per-tile exception handler, so a request that passes the
`num_samples`/`method` validation returns a successful empty result instead
of failing. -/
theorem C6_invalid_crs_swallowed (env : Env) (s e : ℚ × ℚ) (crs : String)
    (sp : Option ℚ) (ns : Option ℤ) (m : String) (hr : env.resolve crs = none)
    (hns : numSamplesInvalid ns = false) (hm : m = "nearest" ∨ m = "bilinear") :
    get_elevation_profile env s e crs sp ns m = Except.ok [] := by
  rw [get_elevation_profile_ok env s e crs sp ns m hns hm]
  rw [List.filterMap_eq_nil_iff.mpr fun t _ => processTile_resolve_none hr]
  rfl

/-- Witness for C6: a concrete unresolvable-CRS request returns the empty
profile successfully. -/
theorem C6_invalid_crs_swallowed_witness :
    get_elevation_profile envBadCrs (0, 0) (2000, 0) "EPSG:9999" none (some 3) "nearest" =
      Except.ok [] :=
  C6_invalid_crs_swallowed envBadCrs (0, 0) (2000, 0) "EPSG:9999" none (some 3) "nearest"
    rfl rfl (Or.inl rfl)

/-- Counterexample to C9: with `num_samples = None` and `spacing_m = None`,
neither sampling mode is resolvable, yet the call raises no
`InvalidParameter` error — it returns a successful result. -/
theorem C9_counterexample :
    get_elevation_profile envNoTiles (0, 0) (1000, 0) "EPSG:4326" none none "bilinear" =
      Except.ok [] := rfl

/-- C9 (amended): `get_elevation_profile` raises `ValueError`
(`InvalidParameter`) when an explicitly supplied `num_samples` is below 2,
and it does so for every environment — hence before any tile I/O; but when
`num_samples` is absent (so neither sampling mode need be resolvable) no
error is raised and the call succeeds. -/
theorem C9_validation (env : Env) (s e : ℚ × ℚ) (crs : String) (sp : Option ℚ)
    (m : String) (n : ℤ) (hn : n < 2) (hm : m = "nearest" ∨ m = "bilinear") :
    get_elevation_profile env s e crs sp (some n) m =
      Except.error ProfileError.invalidNumSamples ∧
    ∃ l, get_elevation_profile env s e crs sp none m = Except.ok l := by
  constructor
  · unfold get_elevation_profile
    rw [show numSamplesInvalid (some n) = true by simp [numSamplesInvalid, hn]]
    rfl
  · exact ⟨_, get_elevation_profile_ok env s e crs sp none m rfl hm⟩

/-- Witness for C9: `num_samples = 1` is rejected as `InvalidParameter`. -/
theorem C9_validation_witness :
    get_elevation_profile envOk (0, 0) (1000, 0) "EPSG:4326" none (some 1) "bilinear" =
      Except.error ProfileError.invalidNumSamples :=
  (C9_validation envOk (0, 0) (1000, 0) "EPSG:4326" none "bilinear" 1
    (by decide) (Or.inr rfl)).1

/-- Helper: when the spacing mode is unusable and `num_samples` is `None`,
the per-tile sample count is exactly 200. -/
theorem tileSampleCount_default (env : Env) (c : CRSModel) (p0 p1 : ℚ × ℚ)
    (sp : Option ℚ) (hsp : sp = none ∨ ∃ q, sp = some q ∧ q ≤ 0) :
    tileSampleCount env c p0 p1 sp none = 200 := by
  rcases hsp with rfl | ⟨q, rfl, hq⟩
  · rfl
  · show (if 0 < q then samples_from_spacing env c p0 p1 q else defaultSamples none) = 200
    rw [if_neg (not_lt.mpr hq)]
    rfl

/-- C10 (confirmed): with `num_samples = None` and `spacing_m` absent or
nonpositive, no error is raised; every candidate tile whose processing
completes is sampled with exactly N = 200 points, and an opened tile's
processing always completes when the input CRS resolves. -/
theorem C10_default_two_hundred (env : Env) (s e : ℚ × ℚ) (crs : String) (sp : Option ℚ)
    (m : String) (hsp : sp = none ∨ ∃ q, sp = some q ∧ q ≤ 0)
    (hm : m = "nearest" ∨ m = "bilinear") :
    (∃ l, get_elevation_profile env s e crs sp none m = Except.ok l) ∧
    (∀ t r, processTile env s e crs sp none m t = some r → r.length = 200) ∧
    (∀ t, env.openTile t ≠ none → env.resolve crs ≠ none →
      processTile env s e crs sp none m t ≠ none) := by
  refine ⟨⟨_, get_elevation_profile_ok env s e crs sp none m rfl hm⟩, ?_, ?_⟩
  · intro t r hr
    obtain ⟨ds, c, _, _, rfl⟩ := processTile_eq_some hr
    rw [processTileBody_length, tileSampleCount_default env _ _ _ sp hsp]
    rfl
  · intro t hot hres hnone
    cases ho : env.openTile t with
    | none => exact hot ho
    | some ds =>
      cases hre : env.resolve crs with
      | none => exact hres hre
      | some c =>
        rw [processTile, ho, Option.some_bind, hre, Option.some_bind] at hnone
        cases hnone

/-- Witness for C10: in the environment where tile (0, 0) opens and the CRS
resolves, the per-tile result has exactly 200 sample pairs. -/
theorem C10_default_two_hundred_witness :
    (processTile envOk (0, 0) (0, 0) "EPSG:4326" none none "bilinear" (0, 0)).map
      List.length = some 200 := by
  have h := (C10_default_two_hundred envOk (0, 0) (0, 0) "EPSG:4326" none "bilinear"
    (Or.inl rfl) (Or.inr rfl)).2.1 (0, 0)
  cases hp : processTile envOk (0, 0) (0, 0) "EPSG:4326" none none "bilinear" (0, 0) with
  | none =>
    exact absurd hp ((C10_default_two_hundred envOk (0, 0) (0, 0) "EPSG:4326" none "bilinear"
      (Or.inl rfl) (Or.inr rfl)).2.2 (0, 0)
      (fun hcon => Option.noConfusion hcon) (fun hcon => Option.noConfusion hcon))
  | some r => exact congrArg some (h r hp)

end

end ElevationProfile
